import Mathlib

/-!
# Verification of the axibly/github-action accessibility scanner core

Shallow embedding of the repository's three source components:

* `PageDiscovery` — `src/page-discovery.js` (link normalizer, crawl
  frontier, sitemap resolver, strategy dispatch);
* `Scanner` — `src/scanner-service.js` (`calculateScore`);
* `Action` — the GitHub-action aggregator embedded in `README.md`
  (`aggregateResults`, `aggregateBusinessImpact`, `aggregateRemediationPlan`,
  `deduplicateIssues`, `getTopBusinessAreas`).

Modelling conventions:

* JavaScript strings that are inspected character by character (site paths)
  are modelled as `List Char`; strings only compared for equality are `String`.
* JavaScript numbers are `Nat`/`Int`; `Math.round(num/den)` on a rational
  `num/den` (`den > 0`) is modelled exactly as `⌊num/den + 1/2⌋` via `Int.fdiv`
  (`Math.round` rounds half toward `+∞`); the float arithmetic of the source
  is modelled as exact rational arithmetic.
* The JavaScript truthiness idiom `a || b` (where `0`, `""`, `null` and
  `undefined` are falsy) is modelled by `jsOrNat` / `jsOrInt`
  (absent-or-zero falls back to the default).
* Network effects (page fetch, sitemap fetch) are oracles passed as
  function/`Option` parameters; an oracle answering `none` models a fetch
  or parse failure.
-/

/-- `Math.round (num / den)` for integers with `den > 0`:
`⌊num/den + 1/2⌋ = ⌊(2*num + den) / (2*den)⌋` (half rounds up). -/
def jsRound (num den : Int) : Int :=
  Int.fdiv (2 * num + den) (2 * den)

/-- JavaScript `a || b` for an optional number `a` (both `undefined`/`null`
and `0` are falsy). -/
def jsOrNat (a : Option Nat) (b : Nat) : Nat :=
  match a with
  | some n => if n = 0 then b else n
  | none => b

/-- JavaScript `a || b` for an optional integer `a`. -/
def jsOrInt (a : Option Int) (b : Int) : Int :=
  match a with
  | some n => if n = 0 then b else n
  | none => b

namespace PageDiscovery

/-! ## Link normalizer (`normalizePaths`, src/page-discovery.js:344-378)

A raw path is a `List Char`.  `normalizePaths` mirrors the source loop:
drop falsy (empty) entries, ensure a leading `/`, strip one trailing `/`
(unless the path is exactly `/`), cut at the first `?` or `#`, deduplicate
with JS-`Set` (insertion-order) semantics, sort lexicographically
(`Array.prototype.sort` default order) and force `/` to the front. -/

/-- Characters at which `split(/[?#]/)` cuts. -/
def isQF (c : Char) : Bool :=
  c == '?' || c == '#'

/-- `path.startsWith('/') ? path : '/' + path`. -/
def ensureSlash (p : List Char) : List Char :=
  if p.head? == some '/' then p else '/' :: p

/-- `if (path !== '/' && path.endsWith('/')) path = path.slice(0, -1)`. -/
def stripTrailing (p : List Char) : List Char :=
  if p != ['/'] && p.getLast? == some '/' then p.dropLast else p

/-- `path.split(/[?#]/)[0]`. -/
def stripQF (p : List Char) : List Char :=
  p.takeWhile (fun c => !(isQF c))

/-- The per-path body of the `normalizePaths` loop. -/
def normOne (p : List Char) : List Char :=
  stripQF (stripTrailing (ensureSlash p))

/-- JS `Set.add`: append if not already present (insertion order kept). -/
def insertSet (acc : List (List Char)) (p : List Char) : List (List Char) :=
  if p ∈ acc then acc else acc ++ [p]

/-- One iteration of the `for (const path of paths)` loop: falsy (empty)
entries are skipped, others are normalized and added to the set. -/
def addNormalized (acc : List (List Char)) (p : List Char) : List (List Char) :=
  if p.isEmpty then acc else insertSet acc (normOne p)

/-- `Array.from(normalized).sort()`: the default `Array.prototype.sort`
compares strings lexicographically by code unit, which on the paths at hand
is the lexicographic order on `List Char`; after deduplication all elements
are distinct, so every comparison sort yields the same list as the JS
engine's sort. -/
def sortPaths (l : List (List Char)) : List (List Char) :=
  l.insertionSort (· ≤ ·)

/-- `result.indexOf('/')`, returning `l.length` when `'/'` is absent (the
source gets `-1`; both sentinels fail the `0 < i ∧ i < l.length` guard
below). -/
def idxOfRoot : List (List Char) → Nat
  | [] => 0
  | x :: rest => if x = ['/'] then 0 else idxOfRoot rest + 1

/-- `const rootIndex = result.indexOf('/'); if (rootIndex > 0) { splice; unshift }`. -/
def moveRootFirst (l : List (List Char)) : List (List Char) :=
  let i := idxOfRoot l
  if 0 < i ∧ i < l.length then ['/'] :: l.eraseIdx i else l

/-- `normalizePaths` (src/page-discovery.js:344-378). -/
def normalizePaths (paths : List (List Char)) : List (List Char) :=
  moveRootFirst (sortPaths (paths.foldl addNormalized []))

/-! ## Crawl frontier (`discoverByCrawling`, src/page-discovery.js:177-222)

The network is abstracted by a `links` oracle mapping a path to the list of
same-host links `extractLinksFromPage` yields for it (a fetch or parse
failure is the empty list — the source catches and skips such errors after
having already marked the path visited and discovered). -/

/-- The inner `for (const link of links)` loop: enqueue links not yet
visited and not already queued. -/
def enqueueLinks (visited queue : List (List Char)) (links : List (List Char)) :
    List (List Char) :=
  links.foldl (fun q l => if l ∈ visited ∨ l ∈ q then q else q ++ [l]) queue

/-- The `while (toVisit.length > 0 && discovered.length < maxPages)` loop of
`discoverByCrawling`.  Total by well-founded recursion on the pair
(remaining page budget, queue length): popping an already-visited path
shortens the queue, and any enqueueing step grows `discovered`. -/
def crawlLoop (links : List Char → List (List Char)) (maxPages : Nat)
    (visited discovered queue : List (List Char)) : List (List Char) :=
  match queue with
  | [] => discovered
  | p :: rest =>
    if _h : maxPages ≤ discovered.length then discovered
    else if p ∈ visited then crawlLoop links maxPages visited discovered rest
    else crawlLoop links maxPages (p :: visited) (discovered ++ [p])
        (enqueueLinks (p :: visited) rest (links p))
termination_by (maxPages - discovered.length, queue.length)
decreasing_by
  · exact Prod.Lex.right _ (by simp [List.length_cons])
  · exact Prod.Lex.left _ _ (by simp only [List.length_append, List.length_cons, List.length_nil]; omega)

/-- `discoverByCrawling` (src/page-discovery.js:177-222):
`maxPages = Math.min(options.maxPages || this.maxPages, 50)`,
`startPaths = options.startPaths || ['/']`. -/
def discoverByCrawling (links : List Char → List (List Char))
    (optMaxPages : Option Nat) (instMaxPages : Nat)
    (startPaths : Option (List (List Char))) : List (List Char) :=
  crawlLoop links (min (jsOrNat optMaxPages instMaxPages) 50) [] []
    (startPaths.getD [['/']])

/-! ## Sitemap resolver (`parseSitemap`, src/page-discovery.js:120-172)

`parseSitemap` is modelled with an explicit fuel parameter because the
source recursion has no depth bound of its own; `none` marks fuel
exhaustion, i.e. a recursion deeper than any given finite depth.  The
`fetchDoc` oracle maps a child sitemap URL to its parsed document
(`none` = non-2xx response or fetch error, which the source catches and
skips).  A `<loc>` entry is a pre-parsed `new URL(...)` value. -/

structure SmUrl where
  hostname : String
  pathname : List Char

/-- A parsed `xml2js` sitemap document: an optional `urlset` of `url/loc`
entries (entries missing `loc` are `none`) and an optional `sitemapindex`
of child sitemap `loc` strings. -/
structure SitemapDoc where
  urlset : Option (List (Option SmUrl))
  sitemapindex : Option (List (Option String))

/-- The `urlset` half of `parseSitemap`: keep pathnames of same-host URLs. -/
def urlsetPages (baseHost : String) (doc : SitemapDoc) : List (List Char) :=
  match doc.urlset with
  | none => []
  | some entries =>
    entries.foldl (fun acc e =>
      match e with
      | some u => if u.hostname = baseHost then acc ++ [u.pathname] else acc
      | none => acc) []

/-- `parseSitemap` with fuel.  The source function recurses into every
child of a `sitemapindex` with no depth parameter; child fetch/parse
failures are skipped (inner try/catch), but the recursion itself is
unbounded, so fuel exhaustion (`none`) propagates. -/
def parseSitemapFuel (fetchDoc : String → Option SitemapDoc) (baseHost : String) :
    Nat → SitemapDoc → Option (List (List Char))
  | 0, _ => none
  | fuel + 1, doc =>
    let direct := urlsetPages baseHost doc
    match doc.sitemapindex with
    | none => some direct
    | some children =>
      children.foldl (fun acc child =>
        acc.bind (fun ps =>
          match child with
          | none => some ps
          | some loc =>
            match fetchDoc loc with
            | none => some ps
            | some childDoc =>
              (parseSitemapFuel fetchDoc baseHost fuel childDoc).map
                (fun cs => ps ++ cs)))
        (some direct)

/-! ## Manual path parsing and strategy dispatch
(`parseManualPaths` src/page-discovery.js:324-339,
`discoverPages` src/page-discovery.js:26-71) -/

/-- The `options.paths` argument: a newline-separated string, an array of
strings (non-string array entries, which the source filters out, are not
representable here), or any other value (treated as no paths). -/
inductive PathsInput where
  | str (s : List Char)
  | arr (l : List (List Char))
  | other

/-- JavaScript `String.prototype.trim`. -/
def jsTrim (l : List Char) : List Char :=
  ((l.dropWhile Char.isWhitespace).reverse.dropWhile Char.isWhitespace).reverse

/-- `parseManualPaths` (src/page-discovery.js:324-339). -/
def parseManualPaths : PathsInput → List (List Char)
  | .str s => ((s.splitOn '\n').map jsTrim).filter
      (fun p => !p.isEmpty && !(p.head? == some '#'))
  | .arr l => l.filter (fun p => !p.isEmpty)
  | .other => []

/-- `strategy.toLowerCase()`, modelled character-wise (the strategy names
are ASCII). -/
def jsToLower (s : String) : String :=
  String.mk (s.data.map Char.toLower)

structure DiscoveryOptions where
  maxPages : Option Nat
  startPaths : Option (List (List Char))
  paths : Option PathsInput

/-- The `switch (strategy.toLowerCase())` of `discoverPages`.  The sitemap
strategy's network interaction is abstracted by `sitemapResult`
(`none` = `discoverFromSitemap` threw, e.g. `No valid sitemap found`). -/
def strategyPages (strategy : String) (sitemapResult : Option (List (List Char)))
    (links : List Char → List (List Char)) (instMaxPages : Nat)
    (opts : DiscoveryOptions) : Option (List (List Char)) :=
  match jsToLower strategy with
  | "single" => some [['/']]
  | "sitemap" => sitemapResult
  | "crawl" => some (discoverByCrawling links opts.maxPages instMaxPages opts.startPaths)
  | "paths" => some (parseManualPaths (opts.paths.getD (.arr [])))
  | _ => some [['/']]

/-- `discoverPages` (src/page-discovery.js:26-71).  `instMaxPages` is the
constructor's `this.maxPages` (`config.maxPages || 10`).  A strategy error
falls back to `['/']`; otherwise the strategy result is normalized and then
truncated to `this.maxPages` entries. -/
def discoverPages (instMaxPages : Nat) (strategy : String)
    (sitemapResult : Option (List (List Char)))
    (links : List Char → List (List Char)) (opts : DiscoveryOptions) :
    List (List Char) :=
  match strategyPages strategy sitemapResult links instMaxPages opts with
  | none => [['/']]
  | some pages =>
    let p := normalizePaths pages
    if instMaxPages < p.length then p.take instMaxPages else p

/-- `this.maxPages = config.maxPages || 10` (src/page-discovery.js:12). -/
def resolveInstMaxPages (configMaxPages : Option Nat) : Nat :=
  jsOrNat configMaxPages 10

end PageDiscovery

section NormalizeSanity

open PageDiscovery

example : normalizePaths ["about".toList, "/about/".toList, "/about?x=1#y".toList] =
    ["/about".toList] := by decide

example : normalizePaths [] = [] := by decide

example : normalizePaths ["/b".toList, "/".toList, "/a".toList] =
    ["/".toList, "/a".toList, "/b".toList] := by decide

-- the two invariant-breaking inputs
example : normalizePaths ["/about/?x=1".toList] = ["/about/".toList] := by decide
example : normalizePaths ["/a//".toList] = ["/a/".toList] := by decide

end NormalizeSanity

namespace Scanner

/-! ## Score calculator (`calculateScore`, src/scanner-service.js:329-351) -/

/-- One raw axe-core violation as `calculateScore` reads it: its `impact`
(possibly `null`/absent) and the length of its `nodes` array. -/
structure SViolation where
  impact : Option String
  nodesLength : Nat

/-- `{'critical': 4, 'serious': 3, 'moderate': 2, 'minor': 1}[impact] || 1`. -/
def impactWeight (impact : Option String) : Nat :=
  match impact with
  | some "critical" => 4
  | some "serious" => 3
  | some "moderate" => 2
  | some "minor" => 1
  | _ => 1

/-- The `results.violations.forEach` accumulator. -/
def weightedViolations (violations : List SViolation) : Nat :=
  violations.foldl (fun acc v => acc + impactWeight v.impact * v.nodesLength) 0

/-- `calculateScore` (src/scanner-service.js:329-351); `passesLength` is
`results.passes.length`. -/
def calculateScore (violations : List SViolation) (passesLength : Nat) : Int :=
  let totalTests := passesLength + violations.length
  if totalTests = 0 then 100
  else
    let weighted : Int := weightedViolations violations
    let maxPossibleWeight : Int := totalTests * 4
    let score := jsRound (100 * (maxPossibleWeight - weighted)) maxPossibleWeight
    max 0 (min 100 score)

/-- The score formula exactly as §4.6 of the specification words it,
written independently of the source: `totalTests = passCount +
violationCount`, 100 when nothing is evaluable, each violation contributes
`impactWeight × affectedNodeCount`, `maxPossibleWeight = totalTests × 4`,
`score = round(((maxPossibleWeight − weightedViolations) / maxPossibleWeight)
× 100)` clamped to `[0, 100]`. -/
def specScore (violations : List SViolation) (passCount : Nat) : Int :=
  let totalTests := passCount + violations.length
  if totalTests = 0 then 100
  else
    let weighted : Int :=
      (violations.map (fun v => impactWeight v.impact * v.nodesLength)).sum
    let maxPossibleWeight : Int := totalTests * 4
    let raw := jsRound (100 * (maxPossibleWeight - weighted)) maxPossibleWeight
    if raw < 0 then 0 else if 100 < raw then 100 else raw

end Scanner

namespace Action

/-! ## Aggregator (`aggregateResults` and helpers, README.md:926-1096)

The `ScanResult`s fed to `aggregateResults` come from the action's
`executeScans`, which attaches a `summary` to every result (including
failed ones), so `summary` is a required field here; `violations` is the
processed violation list (empty for failed results, which the aggregator
never reads). -/

structure Summary where
  score : Int
  violationCount : Nat
  passCount : Nat
deriving DecidableEq

structure CostEstimate where
  max : Option Int
deriving DecidableEq

structure BusinessImpactInfo where
  riskLevel : Option String
  userImpactPercentage : Option Int
  estimatedRemediationCost : Option CostEstimate
  businessAreas : Option (List String)
deriving DecidableEq

structure EffortEstimate where
  quickFixes : Option Nat
  mediumFixes : Option Nat
  complexFixes : Option Nat
deriving DecidableEq

/-- A priority-1 remediation issue. -/
structure RemIssue where
  title : String
  description : String
deriving DecidableEq

structure RemediationPlanInfo where
  priority1 : Option (List RemIssue)
  estimatedEffort : Option EffortEstimate
deriving DecidableEq

/-- The optional SaaS annotation on a scan result. -/
structure EnhancedAnalysis where
  enhancedScore : Option Int
  businessImpact : Option BusinessImpactInfo
  remediationPlan : Option RemediationPlanInfo
deriving DecidableEq

/-- A violation as the aggregator reads it: `impact`, the processed
`nodeCount`, and `nodes?.length` (both may be absent). -/
structure AViolation where
  impact : Option String
  nodeCount : Option Nat
  nodesLength : Option Nat
deriving DecidableEq

structure ScanResult where
  url : String
  status : String
  summary : Summary
  violations : List AViolation
  enhancedAnalysis : Option EnhancedAnalysis
deriving DecidableEq

/-- `r.enhancedAnalysis?.enhancedScore || r.summary.score` (README.md:936). -/
def effectiveScore (r : ScanResult) : Int :=
  jsOrInt (r.enhancedAnalysis.bind (fun ea => ea.enhancedScore)) r.summary.score

/-- The severity histogram with its four fixed keys (README.md:944-949). -/
structure SeverityHist where
  critical : Nat
  serious : Nat
  moderate : Nat
  minor : Nat
deriving DecidableEq

/-- `violation.nodeCount || violation.nodes?.length || 1` (README.md:954). -/
def violationNodes (v : AViolation) : Nat :=
  jsOrNat v.nodeCount (jsOrNat v.nodesLength 1)

/-- One step of the severity grouping loop: a violation whose `impact` is
not an own key of the histogram object is skipped (README.md:951-957). -/
def addViolation (h : SeverityHist) (v : AViolation) : SeverityHist :=
  match v.impact with
  | some "critical" => { h with critical := h.critical + violationNodes v }
  | some "serious" => { h with serious := h.serious + violationNodes v }
  | some "moderate" => { h with moderate := h.moderate + violationNodes v }
  | some "minor" => { h with minor := h.minor + violationNodes v }
  | _ => h

def severityHist (completedScans : List ScanResult) : SeverityHist :=
  completedScans.foldl (fun h r => r.violations.foldl addViolation h) ⟨0, 0, 0, 0⟩

/-! ### Business-impact roll-up (README.md:995-1017, 1064-1078) -/

structure BusinessAreaOut where
  area : String
  affectedPages : Nat
deriving DecidableEq

/-- `areaCount[area] = (areaCount[area] || 0) + 1` on an insertion-ordered
object, modelled as an association list. -/
def bumpArea (acc : List (String × Nat)) (a : String) : List (String × Nat) :=
  if acc.any (fun p => p.1 == a) then
    acc.map (fun p => if p.1 == a then (p.1, p.2 + 1) else p)
  else acc ++ [(a, 1)]

/-- Stable descending insertion, modelling the (stable) JS
`sort(([,a],[,b]) => b - a)` on the entry list. -/
def insertByCountDesc (x : String × Nat) : List (String × Nat) → List (String × Nat)
  | [] => [x]
  | y :: ys => if y.2 < x.2 then x :: y :: ys else y :: insertByCountDesc x ys

/-- `getTopBusinessAreas` (README.md:1064-1078). -/
def getTopBusinessAreas (scansWithAnalysis : List ScanResult) : List BusinessAreaOut :=
  let areaCount := scansWithAnalysis.foldl (fun acc scan =>
    let areas := ((scan.enhancedAnalysis.bind (fun ea => ea.businessImpact)).bind
      (fun bi => bi.businessAreas)).getD []
    areas.foldl bumpArea acc) []
  ((areaCount.foldl (fun acc x => insertByCountDesc x acc) []).take 3).map
    (fun p => ⟨p.1, p.2⟩)

structure BusinessImpactOut where
  overallRisk : String
  pagesAtRisk : Nat
  estimatedRemediationCost : Int
  topBusinessAreas : List BusinessAreaOut
deriving DecidableEq

/-- `scan.enhancedAnalysis.businessImpact?.riskLevel` for a scan known to
carry an analysis. -/
def scanRiskLevel (s : ScanResult) : Option String :=
  (s.enhancedAnalysis.bind (fun ea => ea.businessImpact)).bind (fun bi => bi.riskLevel)

/-- `aggregateBusinessImpact` (README.md:995-1017). -/
def aggregateBusinessImpact (completedScans : List ScanResult) : Option BusinessImpactOut :=
  let scansWithAnalysis := completedScans.filter (fun s => s.enhancedAnalysis.isSome)
  if scansWithAnalysis.isEmpty then none
  else
    let riskLevels := scansWithAnalysis.map scanRiskLevel
    let highestRisk :=
      if some "high" ∈ riskLevels then "high"
      else if some "medium" ∈ riskLevels then "medium"
      else "low"
    let totalEstimatedCost := scansWithAnalysis.foldl (fun sum s =>
      sum + jsOrInt (((s.enhancedAnalysis.bind (fun ea => ea.businessImpact)).bind
        (fun bi => bi.estimatedRemediationCost)).bind (fun c => c.max)) 0) 0
    some
      { overallRisk := highestRisk
        pagesAtRisk := (scansWithAnalysis.filter
          (fun s => scanRiskLevel s == some "high")).length
        -- `Math.round(totalEstimatedCost)`: the identity on integer costs
        estimatedRemediationCost := totalEstimatedCost
        topBusinessAreas := getTopBusinessAreas scansWithAnalysis }

/-! ### Remediation roll-up (README.md:1022-1059, 1083-1096) -/

/-- The dedup key of `deduplicateIssues`: the string concatenation
`issue.title + issue.description` (README.md:1088). -/
def issueKey (i : RemIssue) : String :=
  i.title ++ i.description

/-- `deduplicateIssues` (README.md:1083-1096): first-seen instance per key
is kept, output sliced to the first 5. -/
def deduplicateIssues (issues : List RemIssue) : List RemIssue :=
  (issues.foldl (fun (st : List RemIssue × List String) issue =>
    if issueKey issue ∈ st.2 then st
    else (st.1 ++ [issue], st.2 ++ [issueKey issue])) ([], [])).1.take 5

structure RemediationPlanOut where
  totalQuickFixes : Nat
  totalMediumFixes : Nat
  totalComplexFixes : Nat
  topPriority1Issues : List RemIssue
  estimatedTotalHours : Int
deriving DecidableEq

/-- `scan.enhancedAnalysis.remediationPlan?.priority1 || []`. -/
def scanPriority1 (s : ScanResult) : List RemIssue :=
  ((s.enhancedAnalysis.bind (fun ea => ea.remediationPlan)).bind
    (fun rp => rp.priority1)).getD []

/-- The `scansWithAnalysis.forEach` accumulator of `aggregateRemediationPlan`:
(quick, medium, complex, collected priority-1 issues). -/
def remFold (acc : Nat × Nat × Nat × List RemIssue) (s : ScanResult) :
    Nat × Nat × Nat × List RemIssue :=
  let eff := (s.enhancedAnalysis.bind (fun ea => ea.remediationPlan)).bind
    (fun rp => rp.estimatedEffort)
  let acc1 :=
    match eff with
    | some e => (acc.1 + jsOrNat e.quickFixes 0, acc.2.1 + jsOrNat e.mediumFixes 0,
        acc.2.2.1 + jsOrNat e.complexFixes 0, acc.2.2.2)
    | none => acc
  (acc1.1, acc1.2.1, acc1.2.2.1, acc1.2.2.2 ++ scanPriority1 s)

/-- `aggregateRemediationPlan` (README.md:1022-1059).
`estimatedTotalHours = Math.round(q×0.5 + m×4 + c×16) = round((q + 8m + 32c)/2)`. -/
def aggregateRemediationPlan (completedScans : List ScanResult) :
    Option RemediationPlanOut :=
  let scansWithAnalysis := completedScans.filter (fun s => s.enhancedAnalysis.isSome)
  if scansWithAnalysis.isEmpty then none
  else
    let acc := scansWithAnalysis.foldl remFold (0, 0, 0, [])
    some
      { totalQuickFixes := acc.1
        totalMediumFixes := acc.2.1
        totalComplexFixes := acc.2.2.1
        topPriority1Issues := deduplicateIssues acc.2.2.2
        estimatedTotalHours :=
          jsRound ((acc.1 : Int) + 8 * acc.2.1 + 32 * acc.2.2.1) 2 }

/-! ### The aggregate report (README.md:926-990) -/

structure PageEnhancedOut where
  riskLevel : Option String
  userImpactPercentage : Option Int
  priority1Fixes : Nat
deriving DecidableEq

structure PageResult where
  url : String
  status : String
  score : Int
  basicScore : Int
  violations : Nat
  enhancedAnalysis : Option PageEnhancedOut
deriving DecidableEq

/-- One entry of `pageResults` (README.md:977-988). -/
def pageResult (r : ScanResult) : PageResult :=
  { url := r.url
    status := r.status
    score := jsOrInt (r.enhancedAnalysis.bind (fun ea => ea.enhancedScore))
      (jsOrInt (some r.summary.score) 0)
    basicScore := jsOrInt (some r.summary.score) 0
    violations := jsOrNat (some r.summary.violationCount) 0
    enhancedAnalysis := r.enhancedAnalysis.map (fun ea =>
      { riskLevel := ea.businessImpact.bind (fun bi => bi.riskLevel)
        userImpactPercentage := ea.businessImpact.bind (fun bi => bi.userImpactPercentage)
        priority1Fixes := jsOrNat ((ea.remediationPlan.bind
          (fun rp => rp.priority1)).map List.length) 0 }) }

structure AggregateReport where
  scanId : String
  totalScans : Nat
  completedScans : Nat
  failedScans : Nat
  score : Int
  totalViolations : Nat
  totalPasses : Nat
  violationsBySeverity : SeverityHist
  hasEnhancedAnalysis : Bool
  businessImpact : Option BusinessImpactOut
  remediationPlan : Option RemediationPlanOut
  pageResults : List PageResult
deriving DecidableEq

/-- `aggregateResults` (README.md:926-990). -/
def aggregateResults (scanId : String) (scanResults : List ScanResult) :
    AggregateReport :=
  let completedScans := scanResults.filter (fun r => r.status == "completed")
  let failedScans := scanResults.filter (fun r => r.status == "failed")
  let totalViolations := completedScans.foldl
    (fun sum r => sum + r.summary.violationCount) 0
  let totalPasses := completedScans.foldl (fun sum r => sum + r.summary.passCount) 0
  let totalScore := completedScans.foldl (fun sum r => sum + effectiveScore r) 0
  let averageScore :=
    if 0 < completedScans.length then jsRound totalScore completedScans.length else 0
  { scanId := scanId
    totalScans := scanResults.length
    completedScans := completedScans.length
    failedScans := failedScans.length
    score := averageScore
    totalViolations := totalViolations
    totalPasses := totalPasses
    violationsBySeverity := severityHist completedScans
    hasEnhancedAnalysis := completedScans.any (fun r => r.enhancedAnalysis.isSome)
    businessImpact := aggregateBusinessImpact completedScans
    remediationPlan := aggregateRemediationPlan completedScans
    pageResults := scanResults.map pageResult }

/-- Sum of the four buckets of the severity histogram. -/
def histTotal (h : SeverityHist) : Nat :=
  h.critical + h.serious + h.moderate + h.minor

/-- Whether an impact string is one of the histogram's four fixed keys. -/
def isKnownImpact (i : Option String) : Bool :=
  i == some "critical" || i == some "serious" || i == some "moderate" ||
    i == some "minor"

/-- The first-seen-wins deduplication by the key `title ++ description`,
written as a plain recursion (independent of the seen-set fold of the
source): keep the head, drop every later issue with the same key. -/
def dedupByKeySpec : List RemIssue → List RemIssue
  | [] => []
  | i :: rest => i :: dedupByKeySpec (rest.filter (fun j => !(issueKey j == issueKey i)))
termination_by l => l.length
decreasing_by
  simp only [List.length_cons]
  exact Nat.lt_succ_of_le (List.length_filter_le _ _)

end Action

section AggregateSanity

open Action

example : (aggregateResults "s"
    [⟨"/", "completed", ⟨80, 0, 0⟩, [], none⟩,
     ⟨"/a", "failed", ⟨0, 0, 0⟩, [], none⟩,
     ⟨"/b", "completed", ⟨60, 0, 0⟩, [], none⟩]).score = 70 := by decide

example : (aggregateResults "s"
    [⟨"/", "completed", ⟨80, 0, 0⟩, [], none⟩,
     ⟨"/a", "failed", ⟨0, 0, 0⟩, [], none⟩,
     ⟨"/b", "completed", ⟨60, 0, 0⟩, [], none⟩]).totalScans = 3 := by decide

example :
    (aggregateRemediationPlan
      [⟨"/x", "completed", ⟨50, 0, 0⟩, [], some ⟨none, none, some ⟨some [⟨"ab", "c"⟩], none⟩⟩⟩,
       ⟨"/y", "completed", ⟨50, 0, 0⟩, [], some ⟨none, none, some ⟨some [⟨"a", "bc"⟩], none⟩⟩⟩]).map
      (fun p => p.topPriority1Issues) = some [⟨"ab", "c"⟩] := by decide

example : Scanner.calculateScore [⟨some "critical", 1⟩] 0 = 0 := by decide
example : Scanner.calculateScore [] 0 = 100 := by decide

end AggregateSanity

/-! ## General lemmas -/

theorem foldl_add_map_nat {α : Type} (f : α → Nat) :
    ∀ (l : List α) (init : Nat),
      l.foldl (fun s x => s + f x) init = init + (l.map f).sum
  | [], i => by simp
  | a :: l, i => by
    simp only [List.foldl_cons, List.map_cons, List.sum_cons]
    rw [foldl_add_map_nat f l]
    omega

theorem foldl_add_map_int {α : Type} (f : α → Int) :
    ∀ (l : List α) (init : Int),
      l.foldl (fun s x => s + f x) init = init + (l.map f).sum
  | [], i => by simp
  | a :: l, i => by
    simp only [List.foldl_cons, List.map_cons, List.sum_cons]
    rw [foldl_add_map_int f l]
    ring

theorem clamp_eq_ite (s : Int) :
    max 0 (min 100 s) = if s < 0 then 0 else if 100 < s then 100 else s := by
  rcases lt_trichotomy s 0 with h | h | h <;>
    simp [max_def, min_def] <;> split_ifs <;> omega

/-! ## Claim C2 — score calculator formula -/

/-- C2: `calculateScore` returns exactly
`round(((maxPossibleWeight − weightedViolations) / maxPossibleWeight) × 100)`
clamped to `[0, 100]` with `totalTests = passCount + violationCount`
(100 when `totalTests = 0`), weights `critical=4, serious=3, moderate=2,
minor=1`, unknown impact defaulting to 1, and
`maxPossibleWeight = totalTests × 4`; in particular zero violations and
zero passes give 100, and one critical violation with one affected node and
zero passes gives 0. -/
theorem calculateScore_matches_spec (violations : List Scanner.SViolation)
    (passesLength : Nat) :
    Scanner.calculateScore violations passesLength =
      Scanner.specScore violations passesLength ∧
    Scanner.calculateScore [] 0 = 100 ∧
    Scanner.calculateScore [⟨some "critical", 1⟩] 0 = 0 := by
  refine ⟨?_, by decide, by decide⟩
  unfold Scanner.calculateScore Scanner.specScore
  by_cases h : passesLength + violations.length = 0
  · simp [h]
  · have hw : Scanner.weightedViolations violations =
        (violations.map (fun v => Scanner.impactWeight v.impact * v.nodesLength)).sum := by
      unfold Scanner.weightedViolations
      rw [foldl_add_map_nat]
      omega
    simp only [h, if_false, hw]
    rw [clamp_eq_ite]

/-! ## Claim C6 — sitemap recursion depth -/

/-- An adversarial sitemap index whose single child `loc` resolves to the
same sitemap-index document. -/
def selfIndexDoc : PageDiscovery.SitemapDoc :=
  ⟨none, some [some "https://example.com/sitemap.xml"]⟩

/-- The fetch oracle for the self-referencing index: every URL serves the
same index document (with a 200 response). -/
def selfFetch : String → Option PageDiscovery.SitemapDoc :=
  fun _ => some selfIndexDoc

/-- C6 (refuted): `parseSitemap` bounds its recursion depth by no finite
depth at all.  On a sitemap index that references itself, the recursion
runs out of any amount of fuel: the fuel-indexed model returns `none`
(= still recursing) for every fuel value, so the source function, which
has no depth parameter, never terminates on this input. -/
theorem parseSitemap_recursion_unbounded :
    ∀ fuel : Nat,
      PageDiscovery.parseSitemapFuel selfFetch "example.com" fuel selfIndexDoc = none := by
  intro fuel
  induction fuel with
  | zero => rfl
  | succ n ih =>
    have ih2 : PageDiscovery.parseSitemapFuel selfFetch "example.com" n
        { urlset := none, sitemapindex := some [some "https://example.com/sitemap.xml"] } =
        none := ih
    simp only [PageDiscovery.parseSitemapFuel, selfIndexDoc, selfFetch,
      PageDiscovery.urlsetPages, List.foldl_cons, List.foldl_nil, Option.bind_some]
    rw [ih2]
    rfl

/-! ## Claim C5 — crawl termination and page bound

`crawlLoop` is a total function (accepted by well-founded recursion), which
is the termination half of the claim; the theorem below is the size bound. -/

theorem crawlLoop_length_le (links : List Char → List (List Char)) (maxPages : Nat)
    (visited discovered queue : List (List Char)) :
    (PageDiscovery.crawlLoop links maxPages visited discovered queue).length ≤
      max discovered.length maxPages := by
  induction visited, discovered, queue using PageDiscovery.crawlLoop.induct links maxPages with
  | case1 visited discovered =>
    rw [PageDiscovery.crawlLoop]
    omega
  | case2 visited discovered p rest h =>
    rw [PageDiscovery.crawlLoop]
    simp only [h, dif_pos]
    omega
  | case3 visited discovered p rest h hv ih =>
    rw [PageDiscovery.crawlLoop]
    simp only [h, dif_neg, if_pos hv]
    exact ih
  | case4 visited discovered p rest h hv ih =>
    rw [PageDiscovery.crawlLoop]
    simp only [h, dite_false, if_neg hv]
    have hx := ih
    simp only [List.length_append, List.length_cons, List.length_nil] at hx ⊢
    omega

/-- C5: for every link graph (cyclic or not), every seed list and every
configured page budget, the crawl terminates (`crawlLoop` is total) and
discovers at most `min(pageBudget, 50)` pages, where the budget is the
resolved `options.maxPages || this.maxPages`. -/
theorem crawl_discovers_at_most_budget (links : List Char → List (List Char))
    (optMaxPages : Option Nat) (instMaxPages : Nat)
    (startPaths : Option (List (List Char))) :
    (PageDiscovery.discoverByCrawling links optMaxPages instMaxPages startPaths).length ≤
      min (jsOrNat optMaxPages instMaxPages) 50 := by
  unfold PageDiscovery.discoverByCrawling
  have h := crawlLoop_length_le links (min (jsOrNat optMaxPages instMaxPages) 50)
    [] [] (startPaths.getD [['/']])
  simpa using h

/-! ## `jsRound` arithmetic -/

theorem jsRound_eq_ediv (num den : Int) (h : 0 ≤ den) :
    jsRound num den = (2 * num + den) / (2 * den) := by
  unfold jsRound
  rw [Int.fdiv_eq_ediv _ (by omega)]

theorem jsRound_one (s : Int) : jsRound s 1 = s := by
  rw [jsRound_eq_ediv _ _ (by omega)]
  omega

/-! ## Claim C1 — aggregate overall score -/

/-- C1: `aggregateResults` reports `totalScans` = number of results,
`completedScans` = number of completed results, and an overall score equal
to the rounded arithmetic mean of the completed pages' scores (0 when no
page completed) — failed pages are excluded from the average but counted in
`totalScans`; in particular three results scoring {80, failed, 60} give
overallScore 70, totalScans 3, completedScans 2. -/
theorem aggregate_overall_score (scanId : String) (results : List Action.ScanResult) :
    (Action.aggregateResults scanId results).totalScans = results.length ∧
    (Action.aggregateResults scanId results).completedScans =
      (results.filter (fun r => r.status == "completed")).length ∧
    (Action.aggregateResults scanId results).score =
      (if (results.filter (fun r => r.status == "completed")).length = 0 then 0
       else
         jsRound ((results.filter (fun r => r.status == "completed")).map
             Action.effectiveScore).sum
           (results.filter (fun r => r.status == "completed")).length) ∧
    (Action.aggregateResults "scan"
      [⟨"/", "completed", ⟨80, 0, 0⟩, [], none⟩,
       ⟨"/a", "failed", ⟨0, 0, 0⟩, [], none⟩,
       ⟨"/b", "completed", ⟨60, 0, 0⟩, [], none⟩]).score = 70 ∧
    (Action.aggregateResults "scan"
      [⟨"/", "completed", ⟨80, 0, 0⟩, [], none⟩,
       ⟨"/a", "failed", ⟨0, 0, 0⟩, [], none⟩,
       ⟨"/b", "completed", ⟨60, 0, 0⟩, [], none⟩]).totalScans = 3 ∧
    (Action.aggregateResults "scan"
      [⟨"/", "completed", ⟨80, 0, 0⟩, [], none⟩,
       ⟨"/a", "failed", ⟨0, 0, 0⟩, [], none⟩,
       ⟨"/b", "completed", ⟨60, 0, 0⟩, [], none⟩]).completedScans = 2 := by
  refine ⟨rfl, rfl, ?_, by decide, by decide, by decide⟩
  simp only [Action.aggregateResults]
  rw [foldl_add_map_int]
  rcases Nat.eq_zero_or_pos (results.filter (fun r => r.status == "completed")).length
    with h | h
  · simp [h]
  · rw [if_pos h, if_neg (by omega), zero_add]

/-! ## Claim C9 — falsy enhanced score falls back to the basic score -/

/-- C9: when a completed page carries an `enhancedAnalysis` whose
`enhancedScore` is falsy (absent or 0), the aggregator uses the page's
basic `summary.score` instead — in the effective score that enters the
overall-score average, in the single-page aggregate score, and in the
per-page summary's `score` field. -/
theorem enhancedScore_falsy_uses_basic (sid : String) (r : Action.ScanResult)
    (ea : Action.EnhancedAnalysis) (hc : r.status = "completed")
    (he : r.enhancedAnalysis = some ea)
    (hz : ea.enhancedScore = none ∨ ea.enhancedScore = some 0) :
    Action.effectiveScore r = r.summary.score ∧
    (Action.aggregateResults sid [r]).score = r.summary.score ∧
    (Action.pageResult r).score = r.summary.score := by
  have heff : Action.effectiveScore r = r.summary.score := by
    unfold Action.effectiveScore
    rw [he]
    rcases hz with hz | hz <;> simp [hz, jsOrInt]
  refine ⟨heff, ?_, ?_⟩
  · simp only [Action.aggregateResults, List.filter, hc, List.foldl]
    simp [heff, jsRound_one]
  · unfold Action.pageResult
    simp only [he, Option.bind_some]
    rcases hz with hz | hz <;>
      · simp [hz, jsOrInt]
        exact fun h0 => h0.symm

/-- Concrete instance of `enhancedScore_falsy_uses_basic`: a completed page
with basic score 73 and an enhanced analysis whose `enhancedScore` is 0. -/
theorem enhancedScore_falsy_uses_basic_witness :
    Action.effectiveScore
      ⟨"/", "completed", ⟨73, 2, 5⟩, [], some ⟨some 0, none, none⟩⟩ = 73 ∧
    (Action.aggregateResults "s"
      [⟨"/", "completed", ⟨73, 2, 5⟩, [], some ⟨some 0, none, none⟩⟩]).score = 73 ∧
    (Action.pageResult
      ⟨"/", "completed", ⟨73, 2, 5⟩, [], some ⟨some 0, none, none⟩⟩).score = 73 :=
  enhancedScore_falsy_uses_basic "s"
    ⟨"/", "completed", ⟨73, 2, 5⟩, [], some ⟨some 0, none, none⟩⟩
    ⟨some 0, none, none⟩ rfl rfl (Or.inr rfl)

/-! ## Claim C10 — severity histogram drops unknown impacts -/

theorem histTotal_addViolation (h : Action.SeverityHist) (v : Action.AViolation) :
    Action.histTotal (Action.addViolation h v) =
      Action.histTotal h +
        (if Action.isKnownImpact v.impact then Action.violationNodes v else 0) := by
  unfold Action.addViolation
  rcases hv : v.impact with _ | s
  · simp [Action.isKnownImpact, hv]
  · by_cases h1 : s = "critical"
    · simp [hv, h1, Action.isKnownImpact, Action.histTotal]; omega
    · by_cases h2 : s = "serious"
      · simp [hv, h2, Action.isKnownImpact, Action.histTotal]; omega
      · by_cases h3 : s = "moderate"
        · simp [hv, h3, Action.isKnownImpact, Action.histTotal]; omega
        · by_cases h4 : s = "minor"
          · simp [hv, h4, Action.isKnownImpact, Action.histTotal]; omega
          · simp [hv, h1, h2, h3, h4, Action.isKnownImpact, Action.histTotal]

theorem histTotal_foldVio (vs : List Action.AViolation) :
    ∀ h : Action.SeverityHist,
      Action.histTotal (vs.foldl Action.addViolation h) =
        Action.histTotal h +
          ((vs.filter (fun v => Action.isKnownImpact v.impact)).map
            Action.violationNodes).sum := by
  induction vs with
  | nil => intro h; simp
  | cons a vs ih =>
    intro h
    simp only [List.foldl_cons, List.filter_cons]
    rw [ih, histTotal_addViolation]
    by_cases ha : Action.isKnownImpact a.impact
    · simp [ha]
      omega
    · simp [ha]

theorem histTotal_severityHist (l : List Action.ScanResult) :
    Action.histTotal (Action.severityHist l) =
      (l.map (fun r =>
        ((r.violations.filter (fun v => Action.isKnownImpact v.impact)).map
          Action.violationNodes).sum)).sum := by
  unfold Action.severityHist
  suffices h : ∀ h0 : Action.SeverityHist,
      Action.histTotal (l.foldl (fun h r => r.violations.foldl Action.addViolation h) h0) =
        Action.histTotal h0 +
          (l.map (fun r =>
            ((r.violations.filter (fun v => Action.isKnownImpact v.impact)).map
              Action.violationNodes).sum)).sum by
    rw [h ⟨0, 0, 0, 0⟩]; simp [Action.histTotal]
  induction l with
  | nil => intro h0; simp
  | cons a l ih =>
    intro h0
    simp only [List.foldl_cons, List.map_cons, List.sum_cons]
    rw [ih, histTotal_foldVio]
    omega

/-- C10: the aggregate severity histogram has exactly the four fixed keys
(the fields of `SeverityHist`), a violation whose impact is not one of
`critical`/`serious`/`moderate`/`minor` is silently excluded, and hence the
histogram's total can be smaller than the total affected-node count: a
single completed page with one violation of impact `"unknown"` and
`nodeCount` 3 yields the all-zero histogram while the violation carries 3
affected nodes. -/
theorem severity_histogram_excludes_unknown (sid : String)
    (results : List Action.ScanResult) :
    Action.histTotal (Action.aggregateResults sid results).violationsBySeverity =
      ((results.filter (fun r => r.status == "completed")).map (fun r =>
        ((r.violations.filter (fun v => Action.isKnownImpact v.impact)).map
          Action.violationNodes).sum)).sum ∧
    (Action.aggregateResults "s"
      [⟨"/", "completed", ⟨90, 1, 0⟩, [⟨some "unknown", some 3, none⟩],
        none⟩]).violationsBySeverity = ⟨0, 0, 0, 0⟩ ∧
    Action.violationNodes ⟨some "unknown", some 3, none⟩ = 3 := by
  refine ⟨?_, by decide, by decide⟩
  simp only [Action.aggregateResults]
  exact histTotal_severityHist _

/-! ## Claim C8 — remediation-issue deduplication -/

theorem remFold_issues (l : List Action.ScanResult) :
    ∀ acc : Nat × Nat × Nat × List Action.RemIssue,
      (l.foldl Action.remFold acc).2.2.2 =
        acc.2.2.2 ++ (l.map Action.scanPriority1).flatten := by
  induction l with
  | nil => intro acc; simp
  | cons a l ih =>
    intro acc
    simp only [List.foldl_cons, List.map_cons, List.flatten_cons]
    rw [ih]
    unfold Action.remFold
    cases (a.enhancedAnalysis.bind fun ea => ea.remediationPlan).bind
        (fun rp => rp.estimatedEffort) <;>
      simp

theorem decide_notMem_append (a k : String) (s : List String) :
    (decide (a ∉ s ++ [k])) = (decide (a ∉ s) && !(a == k)) := by
  simp [List.mem_append]
  tauto

theorem dedupFold_eq (issues : List Action.RemIssue) :
    ∀ (u : List Action.RemIssue) (seen : List String),
      (issues.foldl (fun (st : List Action.RemIssue × List String) issue =>
        if Action.issueKey issue ∈ st.2 then st
        else (st.1 ++ [issue], st.2 ++ [Action.issueKey issue])) (u, seen)).1 =
      u ++ Action.dedupByKeySpec
        (issues.filter (fun j => decide (Action.issueKey j ∉ seen))) := by
  induction issues with
  | nil => intro u seen; simp [Action.dedupByKeySpec]
  | cons i rest ih =>
    intro u seen
    simp only [List.foldl_cons, List.filter_cons]
    by_cases hk : Action.issueKey i ∈ seen
    · rw [if_pos hk, ih]
      simp [hk]
    · rw [if_neg hk, ih]
      have hfilter : rest.filter (fun j => decide (Action.issueKey j ∉ seen ++ [Action.issueKey i])) =
          (rest.filter (fun j => decide (Action.issueKey j ∉ seen))).filter
            (fun j => !(Action.issueKey j == Action.issueKey i)) := by
        rw [List.filter_filter]
        apply List.filter_congr
        intro x _
        rw [decide_notMem_append, Bool.and_comm]
      rw [hfilter]
      simp only [hk, decide_not, decide_True, decide_eq_true_eq, not_false_iff,
        Bool.not_false, if_true, decide_False]
      rw [Action.dedupByKeySpec]
      simp [hk, List.append_assoc]

theorem deduplicateIssues_eq_spec (issues : List Action.RemIssue) :
    Action.deduplicateIssues issues = (Action.dedupByKeySpec issues).take 5 := by
  unfold Action.deduplicateIssues
  rw [dedupFold_eq issues [] []]
  simp

/-- C8 (amended): `topPriority1Issues` is the concatenation of the
annotated pages' priority-1 issues deduplicated by the string
concatenation `title ++ description` — two issues collapse exactly when
their concatenated keys are equal (so distinct `(title, description)` pairs
such as `("ab","c")` and `("a","bc")` also collapse), with the first-seen
instance retained — capped to the first 5 entries. -/
theorem remediation_dedup_by_concat_key (completedScans : List Action.ScanResult)
    (plan : Action.RemediationPlanOut)
    (h : Action.aggregateRemediationPlan completedScans = some plan) :
    plan.topPriority1Issues =
      (Action.dedupByKeySpec
        (((completedScans.filter (fun s => s.enhancedAnalysis.isSome)).map
          Action.scanPriority1).flatten)).take 5 := by
  unfold Action.aggregateRemediationPlan at h
  by_cases he : (completedScans.filter (fun s => s.enhancedAnalysis.isSome)).isEmpty = true
  · rw [if_pos he] at h
    exact absurd h (by simp)
  · rw [if_neg he] at h
    have hplan := (Option.some_inj.mp h).symm
    rw [hplan]
    simp only
    rw [deduplicateIssues_eq_spec, remFold_issues]
    simp

/-- Concrete instance of `remediation_dedup_by_concat_key`: one annotated
page reporting the same `(title, description)` issue twice collapses it to
a single `topPriority1Issues` entry. -/
theorem remediation_dedup_by_concat_key_witness :
    Action.aggregateRemediationPlan
        [⟨"/x", "completed", ⟨50, 0, 0⟩, [],
          some ⟨none, none, some ⟨some [⟨"t", "d"⟩, ⟨"t", "d"⟩], none⟩⟩⟩] =
      some ⟨0, 0, 0, [⟨"t", "d"⟩], 0⟩ ∧
    (⟨0, 0, 0, [⟨"t", "d"⟩], 0⟩ : Action.RemediationPlanOut).topPriority1Issues =
      (Action.dedupByKeySpec
        ((([⟨"/x", "completed", ⟨50, 0, 0⟩, [],
            some ⟨none, none, some ⟨some [⟨"t", "d"⟩, ⟨"t", "d"⟩], none⟩⟩⟩] :
          List Action.ScanResult).filter (fun s => s.enhancedAnalysis.isSome)).map
          Action.scanPriority1).flatten).take 5 :=
  ⟨by decide,
   remediation_dedup_by_concat_key
     [⟨"/x", "completed", ⟨50, 0, 0⟩, [],
       some ⟨none, none, some ⟨some [⟨"t", "d"⟩, ⟨"t", "d"⟩], none⟩⟩⟩]
     ⟨0, 0, 0, [⟨"t", "d"⟩], 0⟩ (by decide)⟩

/-- C8 (refuted as stated): the issues `("ab", "c")` and `("a", "bc")`
have different `(title, description)` pairs, yet they collapse to one
`topPriority1Issues` entry, because the dedup key is the concatenation
`title + description`, not the pair. -/
theorem remediation_dedup_pair_counterexample :
    (Action.aggregateRemediationPlan
      [⟨"/x", "completed", ⟨50, 0, 0⟩, [],
        some ⟨none, none, some ⟨some [⟨"ab", "c"⟩], none⟩⟩⟩,
       ⟨"/y", "completed", ⟨50, 0, 0⟩, [],
        some ⟨none, none, some ⟨some [⟨"a", "bc"⟩], none⟩⟩⟩]).map
      (fun p => p.topPriority1Issues) = some [⟨"ab", "c"⟩] ∧
    ¬(Action.RemIssue.mk "ab" "c" = Action.RemIssue.mk "a" "bc") := by
  constructor
  · decide
  · decide

/-! ## Claim C7 — the page-count cap applied by `discoverPages` -/

/-- C7 (refuted as stated): with the constructor cap left at its default
(10) and the per-call `options.maxPages = 2`, the `paths` strategy returns
3 pages — `discoverPages` truncates to the constructor's `this.maxPages`,
not to `options.maxPages`, so the result length exceeds
`options.maxPages`. -/
theorem discover_ignores_options_maxPages :
    (PageDiscovery.discoverPages 10 "paths" none (fun _ => [])
      ⟨some 2, none, some (.arr ["/a".toList, "/b".toList, "/c".toList])⟩).length = 3 ∧
    ¬((PageDiscovery.discoverPages 10 "paths" none (fun _ => [])
      ⟨some 2, none, some (.arr ["/a".toList, "/b".toList, "/c".toList])⟩).length ≤ 2) := by
  constructor
  · decide
  · decide

/-- C7 (amended): for every strategy and options value, the successful
result of `discoverPages` is the Link Normalizer's output truncated to the
first `this.maxPages` entries — the cap fixed by the constructor
(`config.maxPages || 10`), not the per-call `options.maxPages` — and since
that cap is at least 1, the result length (the `['/']` error fallback
included) never exceeds it. -/
theorem discover_truncates_to_constructor_cap (instMaxPages : Nat) (strategy : String)
    (sm : Option (List (List Char))) (links : List Char → List (List Char))
    (opts : PageDiscovery.DiscoveryOptions) (h1 : 1 ≤ instMaxPages) :
    (PageDiscovery.discoverPages instMaxPages strategy sm links opts).length ≤
      instMaxPages ∧
    ∀ pages, PageDiscovery.strategyPages strategy sm links instMaxPages opts = some pages →
      PageDiscovery.discoverPages instMaxPages strategy sm links opts =
        (PageDiscovery.normalizePaths pages).take instMaxPages := by
  unfold PageDiscovery.discoverPages
  cases hsp : PageDiscovery.strategyPages strategy sm links instMaxPages opts with
  | none =>
    refine ⟨by simpa using h1, ?_⟩
    intro pages hpages
    exact absurd hpages (by simp)
  | some pages =>
    constructor
    · by_cases hl : instMaxPages < (PageDiscovery.normalizePaths pages).length
      · simp [hl]
      · simp only [hl, if_false]
        omega
    · intro pages2 hpages2
      obtain rfl := Option.some_inj.mp hpages2
      by_cases hl : instMaxPages < (PageDiscovery.normalizePaths pages).length
      · simp [hl]
      · simp only [hl, if_false]
        exact (List.take_of_length_le (by omega)).symm

/-- Concrete instance of `discover_truncates_to_constructor_cap`: the
`paths` strategy with cap 10. -/
theorem discover_truncates_to_constructor_cap_witness :
    (PageDiscovery.discoverPages 10 "paths" none (fun _ => [])
      ⟨some 2, none, some (.arr ["/a".toList, "/b".toList, "/c".toList])⟩).length ≤ 10 ∧
    PageDiscovery.discoverPages 10 "paths" none (fun _ => [])
        ⟨some 2, none, some (.arr ["/a".toList, "/b".toList, "/c".toList])⟩ =
      (PageDiscovery.normalizePaths
        (PageDiscovery.parseManualPaths
          (.arr ["/a".toList, "/b".toList, "/c".toList]))).take 10 :=
  ⟨(discover_truncates_to_constructor_cap 10 "paths" none (fun _ => [])
      ⟨some 2, none, some (.arr ["/a".toList, "/b".toList, "/c".toList])⟩ (by decide)).1,
   (discover_truncates_to_constructor_cap 10 "paths" none (fun _ => [])
      ⟨some 2, none, some (.arr ["/a".toList, "/b".toList, "/c".toList])⟩ (by decide)).2
     (PageDiscovery.parseManualPaths (.arr ["/a".toList, "/b".toList, "/c".toList]))
     (by decide)⟩

/-! ## Claims C3/C4 — normalizer invariants and idempotence

Spec-side predicates (from §3 "Path" of the specification) and the lemma
stack about `normOne` and the dedup/sort/root-fronting pipeline. -/

namespace PageDiscovery

/-- No query-string or fragment character anywhere in the path. -/
def noQF (p : List Char) : Bool :=
  p.all (fun c => !(isQF c))

/-- The path ends with two consecutive `/` characters. -/
def endsTwoSlash (p : List Char) : Bool :=
  (p.getLast? == some '/') && (p.dropLast.getLast? == some '/')

/-- §3 Path invariant: starts with `/`, has no trailing `/` unless it is
exactly `/`, carries no query string or fragment. -/
def pathInvariant (p : List Char) : Prop :=
  p.head? = some '/' ∧ (p = ['/'] ∨ p.getLast? ≠ some '/') ∧ noQF p = true

/-- Input paths on which the normalizer meets the full Path invariant:
free of `?`/`#` and not ending in a doubled slash. -/
def goodInput (p : List Char) : Prop :=
  noQF p = true ∧ endsTwoSlash p = false

end PageDiscovery

theorem head_ensureSlash (p : List Char) :
    (PageDiscovery.ensureSlash p).head? = some '/' := by
  unfold PageDiscovery.ensureSlash
  by_cases h : (p.head? == some '/') = true
  · rw [if_pos h]
    exact beq_iff_eq.mp h
  · rw [if_neg h]
    rfl

theorem head_dropLast_cons {a : Char} {l : List Char} (h : l ≠ []) :
    ((a :: l).dropLast).head? = some a := by
  cases l with
  | nil => exact absurd rfl h
  | cons b t => simp [List.dropLast]

theorem head_stripTrailing {p : List Char} (h : p.head? = some '/') :
    (PageDiscovery.stripTrailing p).head? = some '/' := by
  unfold PageDiscovery.stripTrailing
  by_cases hc : (p != ['/'] && p.getLast? == some '/') = true
  · rw [if_pos hc]
    cases p with
    | nil => simp at h
    | cons a t =>
      have ha : a = '/' := by simpa using h
      subst ha
      cases t with
      | nil => simp at hc
      | cons b t' => exact head_dropLast_cons (by simp)
  · rw [if_neg hc]
    exact h

theorem head_stripQF {p : List Char} (h : p.head? = some '/') :
    (PageDiscovery.stripQF p).head? = some '/' := by
  cases p with
  | nil => simp at h
  | cons a t =>
    have ha : a = '/' := by simpa using h
    subst ha
    unfold PageDiscovery.stripQF
    rw [List.takeWhile_cons, if_pos (by decide)]
    rfl

theorem normOne_head (p : List Char) :
    (PageDiscovery.normOne p).head? = some '/' :=
  head_stripQF (head_stripTrailing (head_ensureSlash p))

theorem normOne_ne_nil (p : List Char) : PageDiscovery.normOne p ≠ [] := by
  intro h
  have := normOne_head p
  rw [h] at this
  simp at this

theorem noQF_normOne (p : List Char) : PageDiscovery.noQF (PageDiscovery.normOne p) = true := by
  unfold PageDiscovery.noQF PageDiscovery.normOne PageDiscovery.stripQF
  rw [List.all_eq_true]
  intro x hx
  simpa using List.mem_takeWhile_imp (p := fun c => !PageDiscovery.isQF c) hx

section NormalizeLemmas

open PageDiscovery

theorem band_true_iff {a b : Bool} : (a && b) = true ↔ a = true ∧ b = true := by
  simp

theorem noQF_ensureSlash {p : List Char} (h : noQF p = true) :
    noQF (ensureSlash p) = true := by
  unfold ensureSlash
  by_cases hh : (p.head? == some '/') = true
  · rw [if_pos hh]; exact h
  · rw [if_neg hh]
    unfold noQF at h ⊢
    simp [h]
    decide

theorem noQF_stripTrailing {p : List Char} (h : noQF p = true) :
    noQF (stripTrailing p) = true := by
  unfold stripTrailing
  by_cases hc : (p != ['/'] && p.getLast? == some '/') = true
  · rw [if_pos hc]
    unfold noQF at h ⊢
    rw [List.all_eq_true] at h ⊢
    intro x hx
    exact h x (List.mem_of_mem_dropLast hx)
  · rw [if_neg hc]; exact h

theorem stripQF_of_noQF {p : List Char} (h : noQF p = true) : stripQF p = p := by
  unfold stripQF
  rw [List.takeWhile_eq_self_iff]
  intro x hx
  unfold noQF at h
  rw [List.all_eq_true] at h
  exact h x hx

theorem endsTwoSlash_ensureSlash {p : List Char} (h2 : endsTwoSlash p = false) :
    endsTwoSlash (ensureSlash p) = false := by
  unfold ensureSlash
  by_cases hh : (p.head? == some '/') = true
  · rw [if_pos hh]; exact h2
  · rw [if_neg hh]
    cases p with
    | nil => decide
    | cons a t =>
      have ha : ¬(a = '/') := by
        intro e
        subst e
        simp at hh
      cases t with
      | nil =>
        unfold endsTwoSlash
        have g1 : (['/', a]).getLast? = some a := by simp
        have g2 : (['/', a]).dropLast = ['/'] := by simp [List.dropLast]
        rw [g1, g2]
        simp [ha]
      | cons b t' =>
        unfold endsTwoSlash at h2 ⊢
        have g1 : ('/' :: a :: b :: t').getLast? = (a :: b :: t').getLast? :=
          List.getLast?_cons_cons
        have g2 : ('/' :: a :: b :: t').dropLast = '/' :: (a :: b :: t').dropLast := by
          simp [List.dropLast]
        have g3 : (a :: b :: t').dropLast = a :: (b :: t').dropLast := by
          simp [List.dropLast]
        have g4 : ('/' :: a :: (b :: t').dropLast).getLast? =
            (a :: (b :: t').dropLast).getLast? := List.getLast?_cons_cons
        rw [g1, g2, g3, g4, ← g3]
        exact h2

theorem normOne_trailing {p : List Char} (h1 : noQF p = true)
    (h2 : endsTwoSlash p = false) :
    normOne p = ['/'] ∨ (normOne p).getLast? ≠ some '/' := by
  unfold normOne
  have hq1 : noQF (ensureSlash p) = true := noQF_ensureSlash h1
  have hq2 : endsTwoSlash (ensureSlash p) = false := endsTwoSlash_ensureSlash h2
  rw [stripQF_of_noQF (noQF_stripTrailing hq1)]
  unfold stripTrailing
  by_cases hc : ((ensureSlash p) != ['/'] && (ensureSlash p).getLast? == some '/') = true
  · rw [if_pos hc]
    right
    intro hlast
    have c1 : ((ensureSlash p).getLast? == some '/') = true := (band_true_iff.mp hc).2
    have c2 : ((ensureSlash p).dropLast.getLast? == some '/') = true := beq_iff_eq.mpr hlast
    unfold endsTwoSlash at hq2
    rw [c1, c2] at hq2
    simp at hq2
  · rw [if_neg hc]
    rcases not_and_or.mp (fun hand => hc (band_true_iff.mpr hand)) with h | h
    · left
      have : ¬(ensureSlash p ≠ ['/']) := fun hne => h (bne_iff_ne.mpr hne)
      exact not_not.mp this
    · right
      exact fun he => h (beq_iff_eq.mpr he)

theorem normOne_id {x : List Char} (hinv : pathInvariant x) : normOne x = x := by
  obtain ⟨hh, ht, hq⟩ := hinv
  unfold normOne
  have he : ensureSlash x = x := by
    unfold ensureSlash
    rw [if_pos (beq_iff_eq.mpr hh)]
  rw [he]
  have hs : stripTrailing x = x := by
    unfold stripTrailing
    rcases ht with rfl | hne
    · rw [if_neg (by simp)]
    · rw [if_neg (fun hcc => hne (beq_iff_eq.mp (band_true_iff.mp hcc).2))]
  rw [hs]
  exact stripQF_of_noQF hq

end NormalizeLemmas

section NormalizePipeline

open PageDiscovery

theorem mem_insertSet {acc : List (List Char)} {p x : List Char} :
    x ∈ insertSet acc p ↔ x ∈ acc ∨ x = p := by
  unfold insertSet
  by_cases h : p ∈ acc
  · rw [if_pos h]
    exact ⟨Or.inl, fun hx => hx.elim id (fun e => e ▸ h)⟩
  · rw [if_neg h]
    simp

theorem nodup_insertSet {acc : List (List Char)} {p : List Char} (h : acc.Nodup) :
    (insertSet acc p).Nodup := by
  unfold insertSet
  by_cases hp : p ∈ acc
  · rw [if_pos hp]; exact h
  · rw [if_neg hp]
    simp [List.nodup_append, h, hp]

theorem nodup_foldl_addNormalized (paths : List (List Char)) :
    ∀ acc : List (List Char), acc.Nodup → (paths.foldl addNormalized acc).Nodup := by
  induction paths with
  | nil => intro acc h; exact h
  | cons q rest ih =>
    intro acc h
    simp only [List.foldl_cons]
    apply ih
    unfold addNormalized
    by_cases hq : q.isEmpty = true
    · rw [if_pos hq]; exact h
    · rw [if_neg hq]; exact nodup_insertSet h

theorem mem_foldl_addNormalized_imp (paths : List (List Char)) :
    ∀ (acc : List (List Char)) (x : List Char), x ∈ paths.foldl addNormalized acc →
      x ∈ acc ∨ ∃ p, p ∈ paths ∧ x = normOne p := by
  induction paths with
  | nil => intro acc x hx; exact Or.inl hx
  | cons q rest ih =>
    intro acc x hx
    simp only [List.foldl_cons] at hx
    rcases ih _ x hx with hx' | ⟨p, hp, rfl⟩
    · unfold addNormalized at hx'
      by_cases hq : q.isEmpty = true
      · rw [if_pos hq] at hx'
        exact Or.inl hx'
      · rw [if_neg hq] at hx'
        rcases mem_insertSet.mp hx' with h | h
        · exact Or.inl h
        · exact Or.inr ⟨q, List.mem_cons_self q rest, h⟩
    · exact Or.inr ⟨p, List.mem_cons_of_mem _ hp, rfl⟩

theorem foldl_addNormalized_fixed :
    ∀ (l acc : List (List Char)),
      (∀ x ∈ l, x.isEmpty = false ∧ normOne x = x) → (acc ++ l).Nodup →
      l.foldl addNormalized acc = acc ++ l := by
  intro l
  induction l with
  | nil => intro acc _ _; simp
  | cons a t ih =>
    intro acc hgood hnd
    have ha := hgood a (List.mem_cons_self a t)
    have hnotmem : a ∉ acc := by
      intro hmem
      exact (List.disjoint_of_nodup_append hnd) hmem (List.mem_cons_self a t)
    simp only [List.foldl_cons]
    have hstep : addNormalized acc a = acc ++ [a] := by
      unfold addNormalized
      rw [if_neg (by simp [ha.1]), ha.2]
      unfold insertSet
      rw [if_neg hnotmem]
    rw [hstep, ih (acc ++ [a]) (fun x hx => hgood x (List.mem_cons_of_mem _ hx))
      (by simpa using hnd)]
    simp

theorem mem_sortPaths {l : List (List Char)} {x : List Char} :
    x ∈ sortPaths l ↔ x ∈ l :=
  (List.perm_insertionSort _ l).mem_iff

theorem nodup_sortPaths {l : List (List Char)} (h : l.Nodup) : (sortPaths l).Nodup :=
  ((List.perm_insertionSort _ l).nodup_iff).mpr h

theorem sorted_sortPaths (l : List (List Char)) :
    List.Sorted (· ≤ ·) (sortPaths l) :=
  List.sorted_insertionSort _ l

theorem sortPaths_of_sorted {l : List (List Char)}
    (h : List.Sorted (· ≤ ·) l) : sortPaths l = l :=
  List.Sorted.insertionSort_eq h

theorem root_lt_of_head_slash {a : List Char} (hh : a.head? = some '/')
    (hne : a ≠ ['/']) : ['/'] < a := by
  cases a with
  | nil => simp at hh
  | cons c t =>
    have hc : c = '/' := by simpa using hh
    subst hc
    cases t with
    | nil => exact absurd rfl hne
    | cons b bs => exact List.Lex.cons List.Lex.nil

theorem sorted_head_eq_root {l : List (List Char)} (hs : List.Sorted (· ≤ ·) l)
    (hall : ∀ x ∈ l, x.head? = some '/') (hr : ['/'] ∈ l) :
    ∃ t, l = ['/'] :: t := by
  cases l with
  | nil => simp at hr
  | cons a t =>
    by_cases ha : a = ['/']
    · exact ⟨t, by rw [ha]⟩
    · have hrt : ['/'] ∈ t := by
        rcases List.mem_cons.mp hr with h | h
        · exact absurd h.symm ha
        · exact h
      have hle : a ≤ ['/'] := (List.sorted_cons.mp hs).1 _ hrt
      have hlt : ['/'] < a := root_lt_of_head_slash (hall a (List.mem_cons_self a t)) ha
      exact absurd hle (not_le.mpr hlt)

theorem idxOfRoot_of_not_mem : ∀ {l : List (List Char)}, ['/'] ∉ l →
    idxOfRoot l = l.length := by
  intro l
  induction l with
  | nil => intro _; rfl
  | cons a t ih =>
    intro h
    unfold idxOfRoot
    rw [if_neg (fun e => h (by rw [← e]; exact List.mem_cons_self a t))]
    rw [ih (fun hm => h (List.mem_cons_of_mem _ hm))]
    rfl

theorem moveRootFirst_eq_self {l : List (List Char)} (hs : List.Sorted (· ≤ ·) l)
    (hall : ∀ x ∈ l, x.head? = some '/') : moveRootFirst l = l := by
  unfold moveRootFirst
  by_cases hr : ['/'] ∈ l
  · obtain ⟨t, rfl⟩ := sorted_head_eq_root hs hall hr
    rw [if_neg (by simp [idxOfRoot])]
  · rw [idxOfRoot_of_not_mem hr]
    rw [if_neg (by omega)]

theorem mem_moveRootFirst {l : List (List Char)} {x : List Char}
    (hx : x ∈ moveRootFirst l) : x ∈ l := by
  unfold moveRootFirst at hx
  by_cases hc : 0 < idxOfRoot l ∧ idxOfRoot l < l.length
  · rw [if_pos hc] at hx
    rcases List.mem_cons.mp hx with rfl | hx'
    · by_contra hroot
      rw [idxOfRoot_of_not_mem hroot] at hc
      omega
    · exact (List.eraseIdx_sublist l (idxOfRoot l)).mem hx'
  · rw [if_neg hc] at hx
    exact hx

theorem mem_normalize_source {paths : List (List Char)} {x : List Char}
    (hx : x ∈ normalizePaths paths) : ∃ p, p ∈ paths ∧ x = normOne p := by
  unfold normalizePaths at hx
  have hx3 : x ∈ paths.foldl addNormalized [] :=
    mem_sortPaths.mp (mem_moveRootFirst hx)
  rcases mem_foldl_addNormalized_imp paths [] x hx3 with h | h
  · simp at h
  · exact h

end NormalizePipeline

instance (p : List Char) : Decidable (PageDiscovery.pathInvariant p) := by
  unfold PageDiscovery.pathInvariant
  infer_instance

instance (p : List Char) : Decidable (PageDiscovery.goodInput p) := by
  unfold PageDiscovery.goodInput
  infer_instance

/-- C3 (amended): every path in the normalizer's output starts with `/` and
carries no query string or fragment; the full Path invariant — including
"no trailing `/` unless the path is exactly `/`" — holds provided every
input path is free of `?`/`#` and does not end in a doubled slash (the code
strips only one trailing `/`, and does so before cutting at `?`/`#`). -/
theorem normalize_path_invariant (paths : List (List Char)) :
    (∀ x ∈ PageDiscovery.normalizePaths paths,
      x.head? = some '/' ∧ PageDiscovery.noQF x = true) ∧
    ((∀ q ∈ paths, PageDiscovery.goodInput q) →
      ∀ x ∈ PageDiscovery.normalizePaths paths, PageDiscovery.pathInvariant x) := by
  constructor
  · intro x hx
    obtain ⟨p, _, rfl⟩ := mem_normalize_source hx
    exact ⟨normOne_head p, noQF_normOne p⟩
  · intro hgood x hx
    obtain ⟨p, hp, rfl⟩ := mem_normalize_source hx
    obtain ⟨h1, h2⟩ := hgood p hp
    exact ⟨normOne_head p, normOne_trailing h1 h2, noQF_normOne p⟩

/-- Concrete instance of `normalize_path_invariant`: the output `/a` of
normalizing `["/a/", "about"]` satisfies the full Path invariant. -/
theorem normalize_path_invariant_witness :
    PageDiscovery.pathInvariant ("/a".toList) ∧
    "/a".toList ∈ PageDiscovery.normalizePaths ["/a/".toList, "about".toList] :=
  ⟨(normalize_path_invariant ["/a/".toList, "about".toList]).2 (by decide)
    ("/a".toList) (by decide), by decide⟩

/-- C3 (refuted as stated): the normalizer strips the trailing slash before
cutting at `?`/`#` and strips at most one trailing slash, so the outputs
`/about/` (from `/about/?x=1`) and `/a/` (from `/a//`) end in `/` without
being `/` — the Path invariant fails on them. -/
theorem normalize_path_invariant_counterexample :
    PageDiscovery.normalizePaths ["/about/?x=1".toList] = ["/about/".toList] ∧
    ¬ PageDiscovery.pathInvariant ("/about/".toList) ∧
    PageDiscovery.normalizePaths ["/a//".toList] = ["/a/".toList] ∧
    ¬ PageDiscovery.pathInvariant ("/a/".toList) := by
  refine ⟨by decide, by decide, by decide, by decide⟩

/-- C4 (amended): `normalize` is idempotent on every input sequence whose
paths are free of `?`/`#` and do not end in a doubled slash; on such inputs
the first pass produces canonical paths that the second pass fixes
pointwise (in general idempotence fails, see the counterexample). -/
theorem normalize_idempotent_on_clean (paths : List (List Char))
    (h : ∀ q ∈ paths, PageDiscovery.goodInput q) :
    PageDiscovery.normalizePaths (PageDiscovery.normalizePaths paths) =
      PageDiscovery.normalizePaths paths := by
  have hDnd : (paths.foldl PageDiscovery.addNormalized []).Nodup :=
    nodup_foldl_addNormalized paths [] List.nodup_nil
  have hSsorted := sorted_sortPaths (paths.foldl PageDiscovery.addNormalized [])
  have hSnd := nodup_sortPaths hDnd
  have hSsrc : ∀ x ∈ PageDiscovery.sortPaths (paths.foldl PageDiscovery.addNormalized []),
      ∃ p, p ∈ paths ∧ x = PageDiscovery.normOne p := by
    intro x hx
    rcases mem_foldl_addNormalized_imp paths [] x (mem_sortPaths.mp hx) with h' | h'
    · simp at h'
    · exact h'
  have hSall : ∀ x ∈ PageDiscovery.sortPaths (paths.foldl PageDiscovery.addNormalized []),
      x.head? = some '/' := by
    intro x hx
    obtain ⟨p, _, rfl⟩ := hSsrc x hx
    exact normOne_head p
  have hNP : PageDiscovery.normalizePaths paths =
      PageDiscovery.sortPaths (paths.foldl PageDiscovery.addNormalized []) := by
    unfold PageDiscovery.normalizePaths
    exact moveRootFirst_eq_self hSsorted hSall
  rw [hNP]
  have hSinv : ∀ x ∈ PageDiscovery.sortPaths (paths.foldl PageDiscovery.addNormalized []),
      PageDiscovery.pathInvariant x := by
    intro x hx
    obtain ⟨p, hp, rfl⟩ := hSsrc x hx
    obtain ⟨h1, h2⟩ := h p hp
    exact ⟨normOne_head p, normOne_trailing h1 h2, noQF_normOne p⟩
  have hfix : ∀ x ∈ PageDiscovery.sortPaths (paths.foldl PageDiscovery.addNormalized []),
      x.isEmpty = false ∧ PageDiscovery.normOne x = x := by
    intro x hx
    refine ⟨?_, normOne_id (hSinv x hx)⟩
    cases hx2 : x with
    | nil =>
      have := (hSinv x hx).1
      rw [hx2] at this
      simp at this
    | cons a t => rfl
  unfold PageDiscovery.normalizePaths
  rw [foldl_addNormalized_fixed _ [] hfix (by simpa using hSnd)]
  simp only [List.nil_append]
  rw [sortPaths_of_sorted hSsorted]
  exact moveRootFirst_eq_self hSsorted hSall

/-- Concrete instance of `normalize_idempotent_on_clean`. -/
theorem normalize_idempotent_on_clean_witness :
    PageDiscovery.normalizePaths (PageDiscovery.normalizePaths
      ["/a/".toList, "about".toList, "/".toList]) =
      PageDiscovery.normalizePaths ["/a/".toList, "about".toList, "/".toList] :=
  normalize_idempotent_on_clean ["/a/".toList, "about".toList, "/".toList] (by decide)

/-- C4 (refuted as stated): `normalize(["/a//"]) = ["/a/"]` but
`normalize(normalize(["/a//"])) = ["/a"]`, so idempotence fails for
arbitrary path sequences. -/
theorem normalize_not_idempotent_counterexample :
    PageDiscovery.normalizePaths (PageDiscovery.normalizePaths ["/a//".toList]) ≠
      PageDiscovery.normalizePaths ["/a//".toList] := by
  decide
